import Mathlib

/-!
Shallow embedding of the cross-isolate execution substrate of `isolated-vm`
(headers under `src/`): the transferable value model (`external_copy.h`),
the isolate environment with its heap guard, termination and per-isolate
keyed storage (`isolate/environment.h`), and the error annotation helper
(`isolate/util.h`).  UTF-16 code units are modelled as `Nat`, raw bytes as
`Nat`, engine values as the inductive `JSValue`.
-/

namespace ivm

/-- Typed-view tag of `ExternalCopyArrayBufferView::ViewType`
(`external_copy.h` line 229). -/
inductive ViewType where
  | Uint8 | Uint8Clamped | Int8 | Uint16 | Int16 | Uint32 | Int32
  | Float32 | Float64 | DataView
deriving DecidableEq, Repr

/-- Error kind of `ExternalCopyError::ErrorType` (`external_copy.h` line 141). -/
inductive ErrorType where
  | RangeError | ReferenceError | SyntaxError | TypeError | Error
deriving DecidableEq, Repr

/-- Engine values, as far as the transferable model distinguishes them.
Strings are UTF-16 code-unit vectors; an array buffer carries its bytes and
a detached flag; `nativeObject` records whether the object belongs to the
handle set; `symbol` records whether it is a well-known symbol. -/
inductive JSValue where
  | num (value : Int)
  | boolean (value : Bool)
  | null
  | undefined
  | date (value : Int)
  | str (value : List Nat)
  | arr (elements : List JSValue)
  | obj (fields : List (List Nat × JSValue))
  | arrayBuffer (bytes : List Nat) (detached : Bool)
  | bufferView (viewType : ViewType) (bytes : List Nat)
  | func
  | symbol (wellKnown : Bool)
  | nativeObject (inHandleSet : Bool)
  | errObj (errorType : ErrorType) (message : List Nat) (stack : List Nat)

/-- Modelled from the spec: `v8::String::NewExternalTwoByte` is engine code,
not part of this repository; per the comment at `external_copy.h` line 99,
v8 crashes when handed an empty external string, which we model as `none`. -/
def NewExternalTwoByte (data : List Nat) : Option JSValue :=
  if data.length = 0 then none else some (.str data)

/-- `ExternalCopyString::CopyInto` (`external_copy.h` lines 97-104): an empty
stored vector yields the engine's canonical empty string; otherwise the
vector is installed as an external two-byte string resource. -/
def ExternalCopyString.CopyInto (value : List Nat) : Option JSValue :=
  if value.isEmpty then
    some (.str [])
  else
    NewExternalTwoByte value

/-- Errors surfaced by the transferable registry. -/
inductive TransferError where
  | NotSerializable
  | HeapLimit
deriving DecidableEq, Repr

/-- The polymorphic transferable family of `external_copy.h`: one
constructor per concrete `ExternalCopy` subclass (`number`/`boolean` for
`ExternalCopyTemplate`, `string` for `ExternalCopyString`, `serialized`,
`arrayBuffer`, `arrayBufferView`, `errorCopy`, `null`, `undefined`,
`date`), plus `handle` for the spec's handle transferable. -/
inductive Transferable where
  | number (value : Int)
  | boolean (value : Bool)
  | null
  | undefined
  | date (value : Int)
  | string (value : List Nat)
  | serialized (value : JSValue)
  | arrayBuffer (bytes : List Nat)
  | arrayBufferView (bytes : List Nat) (viewType : ViewType)
  | errorCopy (errorType : ErrorType) (message : List Nat) (stack : List Nat)
  | handle

/-- Modelled from the spec: the bodies of `CopyInto` for the non-string
variants live in `external_copy.cc`, which is not in this snapshot.  Each
variant materializes the payload it owns; the serialized variant is
inverted by the engine's `v8::ValueDeserializer` (engine code, round-trips
the serialized graph); the handle transferable materializes its referenced
object.  `none` models an engine crash; only the string variant has a
crashing engine branch (`external_copy.h` line 99). -/
def Transferable.CopyInto : Transferable → Option JSValue
  | .number v => some (.num v)
  | .boolean v => some (.boolean v)
  | .null => some .null
  | .undefined => some .undefined
  | .date v => some (.date v)
  | .string v => ExternalCopyString.CopyInto v
  | .serialized v => some v
  | .arrayBuffer bytes => some (.arrayBuffer bytes false)
  | .arrayBufferView bytes viewType => some (.bufferView viewType bytes)
  | .errorCopy errorType message stack => some (.errObj errorType message stack)
  | .handle => some (.nativeObject true)

mutual

/-- Modelled from the spec: structural size of an engine value graph, used
below as the worst-case heap cost of materializing a serialized graph. -/
def JSValue.graphSize : JSValue → Nat
  | .str s => 1 + s.length
  | .arr elements => 1 + graphSizeList elements
  | .obj fields => 1 + graphSizeFields fields
  | .arrayBuffer bytes _ => 1 + bytes.length
  | .bufferView _ bytes => 1 + bytes.length
  | .errObj _ message stack => 1 + message.length + stack.length
  | _ => 1

/-- Structural size of a list of engine values. -/
def graphSizeList : List JSValue → Nat
  | [] => 0
  | v :: rest => v.graphSize + graphSizeList rest

/-- Structural size of an object's property list. -/
def graphSizeFields : List (List Nat × JSValue) → Nat
  | [] => 0
  | (key, v) :: rest => key.length + v.graphSize + graphSizeFields rest

end

/-- `WorstCaseHeapSize()`: 24 for the scalar templates (`external_copy.h`
line 55) and 32 for externalized strings (line 112).  Modelled from the
spec for the variants whose bodies are in the missing `external_copy.cc`:
an upper bound on the heap cost of materializing the payload. -/
def Transferable.WorstCaseHeapSize : Transferable → Nat
  | .number _ => 24
  | .boolean _ => 24
  | .string _ => 32
  | .null => 16
  | .undefined => 16
  | .date _ => 24
  | .serialized v => 16 * v.graphSize
  | .arrayBuffer bytes => 64 + bytes.length
  | .arrayBufferView bytes _ => 128 + bytes.length
  | .errorCopy _ message stack => 128 + 2 * (message.length + stack.length)
  | .handle => 160

mutual

/-- Modelled from the spec: the traversal of `v8::ValueSerializer` over an
object graph (the serializer is engine code and `ExternalCopy::Copy`'s body
is in the missing `external_copy.cc`).  It fails with `NotSerializable`
exactly on the values the spec lists: functions, native objects outside the
handle set, and symbols other than well-known ones. -/
def serializeCheck : JSValue → Except TransferError Unit
  | .func => .error .NotSerializable
  | .symbol wellKnown => if wellKnown then .ok () else .error .NotSerializable
  | .nativeObject inHandleSet => if inHandleSet then .ok () else .error .NotSerializable
  | .arr elements => serializeCheckList elements
  | .obj fields => serializeCheckFields fields
  | _ => .ok ()

/-- Serializer traversal over the elements of an array. -/
def serializeCheckList : List JSValue → Except TransferError Unit
  | [] => .ok ()
  | v :: rest => do
    serializeCheck v
    serializeCheckList rest

/-- Serializer traversal over the properties of an object. -/
def serializeCheckFields : List (List Nat × JSValue) → Except TransferError Unit
  | [] => .ok ()
  | (_, v) :: rest => do
    serializeCheck v
    serializeCheckFields rest

end

mutual

/-- The spec's classification of values with a transferable representation:
everything except functions, symbols other than well-known ones, native
objects outside the handle set, and composites containing one of those. -/
def JSValue.hasTransferableRepresentation : JSValue → Bool
  | .func => false
  | .symbol wellKnown => wellKnown
  | .nativeObject inHandleSet => inHandleSet
  | .arr elements => allTransferable elements
  | .obj fields => allTransferableFields fields
  | _ => true

/-- Every element has a transferable representation. -/
def allTransferable : List JSValue → Bool
  | [] => true
  | v :: rest => v.hasTransferableRepresentation && allTransferable rest

/-- Every property value has a transferable representation. -/
def allTransferableFields : List (List Nat × JSValue) → Bool
  | [] => true
  | (_, v) :: rest => v.hasTransferableRepresentation && allTransferableFields rest

end

mutual

/-- JSON-cloneable engine values: numbers, booleans, null, strings, and
arrays/objects built out of JSON-cloneable values. -/
def JSValue.JSONCloneable : JSValue → Bool
  | .num _ => true
  | .boolean _ => true
  | .null => true
  | .str _ => true
  | .arr elements => JSONCloneableList elements
  | .obj fields => JSONCloneableFields fields
  | _ => false

/-- Every element is JSON-cloneable. -/
def JSONCloneableList : List JSValue → Bool
  | [] => true
  | v :: rest => v.JSONCloneable && JSONCloneableList rest

/-- Every property value is JSON-cloneable. -/
def JSONCloneableFields : List (List Nat × JSValue) → Bool
  | [] => true
  | (_, v) :: rest => v.JSONCloneable && JSONCloneableFields rest

end

/-- Modelled from the spec: `ExternalCopy::Copy` (declared at
`external_copy.h` line 17; its body is in the missing `external_copy.cc`).
Primitives, dates, strings, buffers, views and error objects map to their
dedicated variants; arbitrary object graphs go through the structured-clone
serializer; functions, symbols other than well-known ones, and native
objects outside the handle set have no transferable representation and fail
with `NotSerializable`.  Detaching the source buffer when `transfer_out` is
set is modelled separately by `ExternalCopyArrayBuffer.Transfer`. -/
def ExternalCopy.Copy (value : JSValue) (transfer_out : Bool) : Except TransferError Transferable :=
  match value with
  | .num v => .ok (.number v)
  | .boolean v => .ok (.boolean v)
  | .null => .ok .null
  | .undefined => .ok .undefined
  | .date v => .ok (.date v)
  | .str s => .ok (.string s)
  | .arrayBuffer bytes _ => .ok (.arrayBuffer bytes)
  | .bufferView viewType bytes => .ok (.arrayBufferView bytes viewType)
  | .errObj errorType message stack => .ok (.errorCopy errorType message stack)
  | .func => .error .NotSerializable
  | .symbol wellKnown =>
    if wellKnown then .ok (.serialized (.symbol wellKnown)) else .error .NotSerializable
  | .nativeObject inHandleSet =>
    if inHandleSet then .ok .handle else .error .NotSerializable
  | .arr elements => do
    serializeCheckList elements
    .ok (.serialized (.arr elements))
  | .obj fields => do
    serializeCheckFields fields
    .ok (.serialized (.obj fields))

/-- `byteLength` of a buffer as observed from script: 0 once detached. -/
def JSValue.byteLength : JSValue → Nat
  | .arrayBuffer bytes detached => if detached then 0 else bytes.length
  | .bufferView _ bytes => bytes.length
  | _ => 0

/-- Modelled from the spec: `ExternalCopyArrayBuffer::Transfer`
(`external_copy.h` line 216; its body is in the missing
`external_copy.cc`), the constructor used by `copy(v, move=true)`.  It
moves ownership of the bytes out of a non-detached source array buffer into
the transferable and leaves the source detached; it is undefined (`none`)
on anything else. -/
def ExternalCopyArrayBuffer.Transfer (source : JSValue) :
    Option (Transferable × JSValue) :=
  match source with
  | .arrayBuffer bytes false => some (.arrayBuffer bytes, .arrayBuffer [] true)
  | _ => none

/-- State of one `IsolateEnvironment` (`isolate/environment.h` lines
184-205), restricted to the fields the verified operations touch.
`terminateExecutionRequested` models the effect of
`v8::Isolate::TerminateExecution`; `holderIsolateRef` models whether
`holder->isolate` still holds its strong reference; `heap` models the set
of values materialized into the isolate's heap, in order; `lastHeapUsed`
and `externalMemory` are the last-observed heap statistics (`last_heap`). -/
structure IsolateEnvironment where
  root : Bool
  terminated : Bool
  terminateExecutionRequested : Bool
  holderIsolateRef : Bool
  memory_limit : Nat
  hit_memory_limit : Bool
  lastHeapUsed : Nat
  externalMemory : Nat
  heap : List JSValue
  rejectedPromiseError : Option JSValue
  executorLockHeld : Bool

/-- `IsolateEnvironment::DidHitMemoryLimit` (`isolate/environment.h` lines
334-336). -/
def IsolateEnvironment.DidHitMemoryLimit (env : IsolateEnvironment) : Bool :=
  env.hit_memory_limit

/-- `IsolateEnvironment::Terminate` (`isolate/environment.h` lines
341-346): `assert(!root)` — modelled as `none` on the root — then
`terminated = true`, `isolate->TerminateExecution()`, and
`holder->isolate.reset()`. -/
def IsolateEnvironment.Terminate (env : IsolateEnvironment) : Option IsolateEnvironment :=
  if env.root then
    none
  else
    some { env with
      terminated := true
      terminateExecutionRequested := true
      holderIsolateRef := false }

/-- Outcome of materializing a transferable: a value, a catchable error, or
an engine crash (which the code must never reach). -/
inductive TransferResult where
  | ok (value : JSValue)
  | error (e : TransferError)
  | crash

/-- Modelled from the spec: `ExternalCopy::TransferIn` and
`CopyIntoCheckHeap` (declared at `external_copy.h` lines 27-31) together
with the `HeapCheck` guard (`isolate/environment.h` lines 109-119); their
bodies are in the missing `.cc` files.  Per §4.5 of the spec the guard
compares the last-observed used heap plus `WorstCaseHeapSize()` against the
memory limit (the minor-GC hint does not move `last_heap`, which is
recorded only at major-GC epilogues) and fails with `HeapLimit` before
anything is materialized; otherwise the value is materialized into the
destination heap. -/
def ExternalCopy.TransferIn (t : Transferable) (env : IsolateEnvironment) :
    TransferResult × IsolateEnvironment :=
  if env.lastHeapUsed + t.WorstCaseHeapSize > env.memory_limit then
    (.error .HeapLimit, env)
  else
    match t.CopyInto with
    | some v => (.ok v, { env with heap := env.heap ++ [v] })
    | none => (.crash, env)

/-- The operations that touch an environment's state. -/
inductive EnvOp where
  | gcEpilogue (usedHeapSize externalMemory : Nat)
  | oomCallback
  | taskEpilogue
  | terminate
  | transferIn (t : Transferable)

/-- Modelled from the spec: the per-operation state transitions of §4.5
(the bodies of `GCEpilogueCallback`, `OOMErrorCallback` and `TaskEpilogue`
are in the missing `environment.cc`).  The GC epilogue on a non-root
isolate records the observed heap statistics and, when over the limit, sets
`hit_memory_limit` and terminates; the OOM callback sets `hit_memory_limit`
and terminates; the task epilogue rethrows and clears the stashed rejected
promise (and raises a fatal error when `hit_memory_limit` is set, touching
no state); `terminate` is the source's `Terminate` (a no-op on the root,
where it is forbidden); `transferIn` is the heap-guarded
materialization. -/
def EnvOp.step (op : EnvOp) (env : IsolateEnvironment) : IsolateEnvironment :=
  match op with
  | .gcEpilogue used ext =>
    if env.root then env
    else if used + ext > env.memory_limit then
      { env with lastHeapUsed := used, externalMemory := ext,
                 hit_memory_limit := true, terminated := true,
                 terminateExecutionRequested := true, holderIsolateRef := false }
    else
      { env with lastHeapUsed := used, externalMemory := ext }
  | .oomCallback =>
    { env with hit_memory_limit := true, terminated := true,
               terminateExecutionRequested := true, holderIsolateRef := false }
  | .taskEpilogue => { env with rejectedPromiseError := none }
  | .terminate => env.Terminate.getD env
  | .transferIn t => (ExternalCopy.TransferIn t env).2

/-- A sequence of environment operations, applied in order. -/
def runOps (ops : List EnvOp) (env : IsolateEnvironment) : IsolateEnvironment :=
  ops.foldl (fun e op => op.step e) env

/-- `IsolateSpecific::Deref` (`isolate/environment.h` lines 128-137): if
the environment's slot vector is longer than `key` and the `v8::Eternal`
slot there is non-empty, return its value; otherwise return empty.  A slot
is modelled as `Option V` (`none` is an empty `v8::Eternal`). -/
def IsolateSpecific.Deref {V : Type} (specifics : List (Option V)) (key : Nat) : Option V :=
  if h : specifics.length > key then
    match specifics.get ⟨key, h⟩ with
    | some v => some v
    | none => none
  else
    none

/-- The `while (size <= key) emplace_back(empty)` loop of
`IsolateSpecific::Set` (`isolate/environment.h` lines 142-147). -/
def IsolateSpecific.extendWithEmpty {V : Type} (specifics : List (Option V)) (key : Nat) :
    List (Option V) :=
  if specifics.length ≤ key then
    IsolateSpecific.extendWithEmpty (specifics ++ [none]) key
  else
    specifics
termination_by key + 1 - specifics.length

/-- `IsolateSpecific::Set` (`isolate/environment.h` lines 139-149): extend
the slot vector with empty slots up to and including `key`, then store the
handle at `key`. -/
def IsolateSpecific.Set {V : Type} (specifics : List (Option V)) (key : Nat) (handle : V) :
    List (Option V) :=
  (IsolateSpecific.extendWithEmpty specifics key).set key (some handle)

/-- The decorator string built by `RunWithAnnotatedErrors`
(`isolate/util.h` lines 111-114): `resource:line:(column+1)`. -/
def errorDecorator (resourceName : String) (linenum startColumn : Nat) : String :=
  resourceName ++ ":" ++ toString linenum ++ ":" ++ toString (startColumn + 1)

/-- The message rewrite of `RunWithAnnotatedErrors` (`isolate/util.h` lines
115-116): the error's `message` property becomes
`message + " [" + decorator + "]"`. -/
def annotateMessage (resourceName : String) (linenum startColumn : Nat) (message : String) :
    String :=
  message ++ " [" ++ errorDecorator resourceName linenum startColumn ++ "]"

/-- Executor-lock state across all threads: `current` is each thread's
`ExecutorLock::current` thread-local (`isolate/environment.h` line 36);
`frames t` is thread `t`'s stack of live `ExecutorLock` frames, newest
first, each holding the locked environment and the saved previous value of
`current` (the `last` member, line 38). -/
structure ExecState where
  current : Nat → Option Nat
  frames : Nat → List (Nat × Option Nat)

/-- Thread `t` holds environment `e`'s executor lock. -/
def ExecState.holdsLock (s : ExecState) (t e : Nat) : Prop :=
  e ∈ (s.frames t).map Prod.fst

/-- Boot state: no thread holds a lock and no current isolate is set. -/
def ExecState.init : ExecState :=
  { current := fun _ => none, frames := fun _ => [] }

/-- Modelled from the spec: the `ExecutorLock` constructor and destructor
(declared at `isolate/environment.h` lines 44-47; bodies in the missing
`environment.cc`).  Construction takes the engine's per-isolate lock
(exclusive across threads), saves the previous `current` and points
`current` at the newly entered environment; destruction — reached on every
exit path, since the frame is scoped — restores the saved value and
releases the engine lock.  Frames are scoped, so a thread releases them in
LIFO order. -/
inductive ExecStep : ExecState → ExecState → Prop where
  | acquire (s : ExecState) (t e : Nat)
      (hfree : ∀ t', ¬ s.holdsLock t' e) :
      ExecStep s
        { current := Function.update s.current t (some e)
          frames := Function.update s.frames t ((e, s.current t) :: s.frames t) }
  | release (s : ExecState) (t e : Nat) (saved : Option Nat)
      (rest : List (Nat × Option Nat))
      (htop : s.frames t = (e, saved) :: rest) :
      ExecStep s
        { current := Function.update s.current t saved
          frames := Function.update s.frames t rest }

/-- Executor-lock states reachable from boot. -/
inductive ExecReachable : ExecState → Prop where
  | init : ExecReachable ExecState.init
  | step {s s' : ExecState} : ExecReachable s → ExecStep s s' → ExecReachable s'

/-- Environment of the newest live executor-lock frame of a stack. -/
def topEnv : List (Nat × Option Nat) → Option Nat
  | [] => none
  | (e, _) :: _ => some e

/-- Each frame saved the environment of the frame below it (`none` at the
bottom): the destructors restore, frame by frame, exactly the values the
constructors displaced. -/
def stackChained : List (Nat × Option Nat) → Prop
  | [] => True
  | (_, saved) :: rest => saved = topEnv rest ∧ stackChained rest

/-- A concrete non-root environment, used by several witnesses: 8-byte
memory limit, empty heap, executor lock held by the calling thread. -/
def sampleEnv : IsolateEnvironment :=
  { root := false, terminated := false, terminateExecutionRequested := false,
    holderIsolateRef := true, memory_limit := 8, hit_memory_limit := false,
    lastHeapUsed := 0, externalMemory := 0, heap := [],
    rejectedPromiseError := none, executorLockHeld := true }

/-- A concrete root environment. -/
def sampleRootEnv : IsolateEnvironment :=
  { sampleEnv with root := true }

/-- `sampleEnv` after its heap watchdog has tripped. -/
def sampleHitEnv : IsolateEnvironment :=
  { sampleEnv with hit_memory_limit := true }

/-- `sampleEnv` with a memory limit large enough for small transfers. -/
def sampleRoomyEnv : IsolateEnvironment :=
  { sampleEnv with memory_limit := 4096 }

/-- Both branches of the string `CopyInto` produce exactly the stored
code units. -/
theorem ExternalCopyString.CopyInto_eq (value : List Nat) :
    ExternalCopyString.CopyInto value = some (.str value) := by
  cases value <;> simp [ExternalCopyString.CopyInto, NewExternalTwoByte]

/-- C10: `ExternalCopyString::CopyInto` returns the engine's canonical
empty string for an empty stored UTF-16 vector; only non-empty vectors
reach the external-string branch (`NewExternalTwoByte`, which crashes the
engine on an empty string); and `CopyInto` is total over all string
copies. -/
theorem externalCopyString_copyInto_total (value : List Nat) :
    (value = [] → ExternalCopyString.CopyInto value = some (.str [])) ∧
    (value ≠ [] → ExternalCopyString.CopyInto value = NewExternalTwoByte value) ∧
    (ExternalCopyString.CopyInto value).isSome = true := by
  refine ⟨fun h => by subst h; rfl, fun h => ?_, ?_⟩
  · simp [ExternalCopyString.CopyInto, List.isEmpty_iff, h]
  · rw [ExternalCopyString.CopyInto_eq]; rfl

/-- C3: the transfer (move) constructor on a non-detached array buffer
moves the bytes into the transferable, leaves the source detached with a
`byteLength` of 0, and the transferable later materializes exactly the
original bytes at the destination. -/
theorem arrayBuffer_transfer_moves (bytes : List Nat) :
    ExternalCopyArrayBuffer.Transfer (.arrayBuffer bytes false) =
      some (.arrayBuffer bytes, .arrayBuffer [] true) ∧
    (JSValue.arrayBuffer [] true).byteLength = 0 ∧
    Transferable.CopyInto (.arrayBuffer bytes) = some (.arrayBuffer bytes false) :=
  ⟨rfl, rfl, rfl⟩

/-- C4: on a non-root environment `Terminate` sets `terminated`, asks the
engine to terminate execution, and clears the holder's strong reference;
running it a second time leaves the state identical (idempotent); and on a
root environment it is forbidden (the assertion fails, modelled as
`none`). -/
theorem terminate_spec (env envR : IsolateEnvironment)
    (h : env.root = false) (hR : envR.root = true) :
    env.Terminate = some { env with
                           terminated := true,
                           terminateExecutionRequested := true,
                           holderIsolateRef := false } ∧
    env.Terminate.bind IsolateEnvironment.Terminate = env.Terminate ∧
    envR.Terminate = none := by
  refine ⟨by simp [IsolateEnvironment.Terminate, h], ?_,
    by simp [IsolateEnvironment.Terminate, hR]⟩
  simp [IsolateEnvironment.Terminate, h]

/-- `terminate_spec` applied to concrete non-root and root environments. -/
theorem terminate_spec_witness :
    sampleEnv.root = false ∧ sampleRootEnv.root = true ∧
    (sampleEnv.Terminate = some { sampleEnv with
                                  terminated := true,
                                  terminateExecutionRequested := true,
                                  holderIsolateRef := false } ∧
     sampleEnv.Terminate.bind IsolateEnvironment.Terminate = sampleEnv.Terminate ∧
     sampleRootEnv.Terminate = none) :=
  ⟨rfl, rfl, terminate_spec sampleEnv sampleRootEnv rfl rfl⟩

/-- C9 counterexample: annotating the message `"x"` twice with the
location decorator `a:1:1` yields `"x [a:1:1] [a:1:1]"`, which differs from
the once-annotated `"x [a:1:1]"`: the decoration applied by
`RunWithAnnotatedErrors` is not idempotent. -/
theorem annotateMessage_not_idempotent :
    annotateMessage "a" 1 0 (annotateMessage "a" 1 0 "x") ≠
      annotateMessage "a" 1 0 "x" := by
  decide

/-- C9 amended: each application of the decoration appends the bracketed
`resource:line:column` suffix to the error's message, so decorating twice
yields the once-decorated message with the suffix appended a second time —
in particular it never equals decorating once. -/
theorem annotateMessage_appends (resourceName : String) (linenum startColumn : Nat)
    (message : String) :
    annotateMessage resourceName linenum startColumn
        (annotateMessage resourceName linenum startColumn message) =
      annotateMessage resourceName linenum startColumn message
        ++ " [" ++ errorDecorator resourceName linenum startColumn ++ "]" ∧
    annotateMessage resourceName linenum startColumn
        (annotateMessage resourceName linenum startColumn message) ≠
      annotateMessage resourceName linenum startColumn message := by
  constructor
  · rfl
  · intro h
    have hlen := congrArg String.length h
    simp only [annotateMessage, String.length_append] at hlen
    have : (" [" : String).length = 2 := rfl
    have hb : ("]" : String).length = 1 := rfl
    omega

/-- C1: with the receiving isolate's executor lock held, `TransferIn`
first runs the heap guard using `WorstCaseHeapSize`; whenever the
last-observed used heap plus that worst case exceeds the destination's
memory limit it fails with `HeapLimit` and returns the destination
environment unchanged — in particular the destination heap is untouched and
no value is materialized. -/
theorem transferIn_heapLimit (t : Transferable) (env : IsolateEnvironment)
    (hlock : env.executorLockHeld = true)
    (hover : env.memory_limit < env.lastHeapUsed + t.WorstCaseHeapSize) :
    ExternalCopy.TransferIn t env = (.error .HeapLimit, env) ∧
    (ExternalCopy.TransferIn t env).2.heap = env.heap := by
  have heq : ExternalCopy.TransferIn t env = (.error .HeapLimit, env) := by
    simp [ExternalCopy.TransferIn, hover]
  exact ⟨heq, by rw [heq]⟩

/-- `transferIn_heapLimit` at a concrete transferable and environment: a
null copy (worst case 16 bytes) against an 8-byte limit. -/
theorem transferIn_heapLimit_witness :
    sampleEnv.executorLockHeld = true ∧
    sampleEnv.memory_limit <
      sampleEnv.lastHeapUsed + Transferable.WorstCaseHeapSize .null ∧
    (ExternalCopy.TransferIn .null sampleEnv = (.error .HeapLimit, sampleEnv) ∧
     (ExternalCopy.TransferIn .null sampleEnv).2.heap = sampleEnv.heap) :=
  ⟨rfl, by decide, transferIn_heapLimit .null sampleEnv rfl (by decide)⟩

/-- No single environment operation clears a set `hit_memory_limit`
flag. -/
theorem EnvOp.step_hit_memory_limit (op : EnvOp) (env : IsolateEnvironment)
    (h : env.hit_memory_limit = true) : (op.step env).hit_memory_limit = true := by
  cases op with
  | gcEpilogue used ext =>
    simp only [EnvOp.step]
    split
    · exact h
    · split <;> simp [h]
  | oomCallback => simp [EnvOp.step]
  | taskEpilogue => simpa [EnvOp.step] using h
  | terminate =>
    simp only [EnvOp.step, IsolateEnvironment.Terminate]
    split <;> simp [h]
  | transferIn t =>
    simp only [EnvOp.step, ExternalCopy.TransferIn]
    split
    · exact h
    · split <;> simp [h]

/-- C5: `hit_memory_limit` is monotone: no sequence of environment
operations (GC epilogues, OOM callbacks, task epilogues, terminations,
transfers) ever resets it, so once `DidHitMemoryLimit` returns true it
returns true in every subsequent state. -/
theorem hit_memory_limit_monotone (ops : List EnvOp) (env : IsolateEnvironment)
    (h : env.DidHitMemoryLimit = true) :
    (runOps ops env).DidHitMemoryLimit = true := by
  induction ops generalizing env with
  | nil => simpa [runOps] using h
  | cons op rest ih =>
    have h1 : (op.step env).hit_memory_limit = true :=
      EnvOp.step_hit_memory_limit op env
        (by simpa [IsolateEnvironment.DidHitMemoryLimit] using h)
    simpa [runOps] using
      ih (op.step env) (by simpa [IsolateEnvironment.DidHitMemoryLimit] using h1)

/-- A concrete operation sequence exercising every operation kind. -/
def sampleOps : List EnvOp :=
  [.taskEpilogue, .gcEpilogue 2 1, .terminate, .transferIn .null, .oomCallback]

/-- `hit_memory_limit_monotone` at a concrete environment whose watchdog
has tripped, across a sequence exercising every operation kind. -/
theorem hit_memory_limit_monotone_witness :
    sampleHitEnv.DidHitMemoryLimit = true ∧
    (runOps sampleOps sampleHitEnv).DidHitMemoryLimit = true :=
  ⟨rfl, hit_memory_limit_monotone sampleOps sampleHitEnv rfl⟩

/-- Closed form of the `while (size <= key) emplace_back(empty)` loop: it
pads the vector with empty slots until index `key` is in range. -/
theorem IsolateSpecific.extendWithEmpty_eq {V : Type} (specifics : List (Option V)) (key : Nat) :
    IsolateSpecific.extendWithEmpty specifics key =
      specifics ++ List.replicate (key + 1 - specifics.length) none := by
  rw [IsolateSpecific.extendWithEmpty]
  by_cases h : specifics.length ≤ key
  · rw [if_pos h, IsolateSpecific.extendWithEmpty_eq (specifics ++ [none]) key,
      List.append_assoc]
    congr 1
    have hlen : key + 1 - specifics.length = (key + 1 - (specifics.length + 1)) + 1 := by
      omega
    simp [List.length_append, hlen, List.replicate_succ]
  · rw [if_neg h]
    have hz : key + 1 - specifics.length = 0 := by omega
    simp [hz]
termination_by key + 1 - specifics.length
decreasing_by simp [List.length_append]; omega

/-- `Deref` reads the slot at `key`, with empty for an out-of-range key. -/
theorem IsolateSpecific.Deref_eq_getD {V : Type} (specifics : List (Option V)) (key : Nat) :
    IsolateSpecific.Deref specifics key = specifics.getD key none := by
  unfold IsolateSpecific.Deref
  split
  · rename_i h
    rw [List.getD_eq_getElem?_getD, List.getElem?_eq_getElem h]
    cases hg : specifics.get ⟨key, h⟩ <;>
      simp [List.get_eq_getElem] at hg <;> simp [hg]
  · rename_i h
    rw [List.getD_eq_getElem?_getD, List.getElem?_eq_none (by omega)]
    rfl

/-- C6: `Deref` of a slot never set in the current environment returns
empty — in particular every slot of a fresh environment is empty — and
`Set` on a slot vector of size at most `key` extends it with empty slots up
to and including index `key` and stores the value there, after which
`Deref` of the same key returns the stored value while `Deref` of any other
never-set key still returns empty. -/
theorem isolateSpecific_set_deref {V : Type} (specifics : List (Option V))
    (key key' : Nat) (handle : V) (hne : key' ≠ key)
    (hnever : IsolateSpecific.Deref specifics key' = none) :
    IsolateSpecific.Deref ([] : List (Option V)) key = none ∧
    (specifics.length ≤ key →
      (IsolateSpecific.Set specifics key handle).length = key + 1) ∧
    IsolateSpecific.Deref (IsolateSpecific.Set specifics key handle) key = some handle ∧
    IsolateSpecific.Deref (IsolateSpecific.Set specifics key handle) key' = none := by
  have hext := IsolateSpecific.extendWithEmpty_eq specifics key
  have hlen : (IsolateSpecific.extendWithEmpty specifics key).length =
      specifics.length + (key + 1 - specifics.length) := by
    rw [hext]; simp
  refine ⟨?_, ?_, ?_, ?_⟩
  · rw [IsolateSpecific.Deref_eq_getD]; rfl
  · intro hle
    rw [IsolateSpecific.Set, List.length_set, hlen]; omega
  · rw [IsolateSpecific.Deref_eq_getD, IsolateSpecific.Set,
      List.getD_eq_getElem?_getD, List.getElem?_set_self (by rw [hlen]; omega)]
    rfl
  · rw [IsolateSpecific.Deref_eq_getD] at hnever
    rw [IsolateSpecific.Deref_eq_getD, IsolateSpecific.Set,
      List.getD_eq_getElem?_getD, List.getElem?_set_ne (fun he => hne he.symm), hext,
      List.getElem?_append]
    rw [List.getD_eq_getElem?_getD] at hnever
    split
    · exact hnever
    · rw [List.getElem?_replicate]
      split <;> rfl

/-- `isolateSpecific_set_deref` at a concrete slot vector: one occupied
slot, a write at key 2, reads back at keys 2 and at the never-set key 3. -/
theorem isolateSpecific_set_deref_witness :
    (3 ≠ 2 ∧ IsolateSpecific.Deref ([some 7] : List (Option Nat)) 3 = none) ∧
    (IsolateSpecific.Deref ([] : List (Option Nat)) 2 = none ∧
     (([some 7] : List (Option Nat)).length ≤ 2 →
       (IsolateSpecific.Set ([some 7] : List (Option Nat)) 2 9).length = 2 + 1) ∧
     IsolateSpecific.Deref (IsolateSpecific.Set ([some 7] : List (Option Nat)) 2 9) 2 =
       some 9 ∧
     IsolateSpecific.Deref (IsolateSpecific.Set ([some 7] : List (Option Nat)) 2 9) 3 =
       none) := by
  constructor
  · refine ⟨by decide, ?_⟩
    rw [IsolateSpecific.Deref_eq_getD]
    rfl
  · exact isolateSpecific_set_deref [some 7] 2 3 9 (by decide)
      (by rw [IsolateSpecific.Deref_eq_getD]; rfl)

mutual

/-- The serializer traversal succeeds exactly on values with a transferable
representation, and its only failure is `NotSerializable`. -/
theorem serializeCheck_eq : (v : JSValue) →
    serializeCheck v =
      if v.hasTransferableRepresentation = true then .ok () else .error .NotSerializable
  | .num _ => by simp [serializeCheck, JSValue.hasTransferableRepresentation]
  | .boolean _ => by simp [serializeCheck, JSValue.hasTransferableRepresentation]
  | .null => by simp [serializeCheck, JSValue.hasTransferableRepresentation]
  | .undefined => by simp [serializeCheck, JSValue.hasTransferableRepresentation]
  | .date _ => by simp [serializeCheck, JSValue.hasTransferableRepresentation]
  | .str _ => by simp [serializeCheck, JSValue.hasTransferableRepresentation]
  | .arrayBuffer _ _ => by simp [serializeCheck, JSValue.hasTransferableRepresentation]
  | .bufferView _ _ => by simp [serializeCheck, JSValue.hasTransferableRepresentation]
  | .errObj _ _ _ => by simp [serializeCheck, JSValue.hasTransferableRepresentation]
  | .func => by simp [serializeCheck, JSValue.hasTransferableRepresentation]
  | .symbol wellKnown => by
    cases wellKnown <;> simp [serializeCheck, JSValue.hasTransferableRepresentation]
  | .nativeObject inHandleSet => by
    cases inHandleSet <;> simp [serializeCheck, JSValue.hasTransferableRepresentation]
  | .arr elements => by
    rw [show serializeCheck (.arr elements) = serializeCheckList elements by
          simp [serializeCheck],
        serializeCheckList_eq elements]
    simp [JSValue.hasTransferableRepresentation]
  | .obj fields => by
    rw [show serializeCheck (.obj fields) = serializeCheckFields fields by
          simp [serializeCheck],
        serializeCheckFields_eq fields]
    simp [JSValue.hasTransferableRepresentation]

/-- List version of `serializeCheck_eq`. -/
theorem serializeCheckList_eq : (l : List JSValue) →
    serializeCheckList l =
      if allTransferable l = true then .ok () else .error .NotSerializable
  | [] => by simp [serializeCheckList, allTransferable]
  | v :: rest => by
    rw [show serializeCheckList (v :: rest) =
          (do serializeCheck v; serializeCheckList rest) by simp [serializeCheckList],
        serializeCheck_eq v, serializeCheckList_eq rest]
    by_cases h : v.hasTransferableRepresentation = true <;>
      by_cases h2 : allTransferable rest = true <;>
        simp [allTransferable, h, h2, Bind.bind, Except.bind]

/-- Field version of `serializeCheck_eq`. -/
theorem serializeCheckFields_eq : (l : List (List Nat × JSValue)) →
    serializeCheckFields l =
      if allTransferableFields l = true then .ok () else .error .NotSerializable
  | [] => by simp [serializeCheckFields, allTransferableFields]
  | (key, v) :: rest => by
    rw [show serializeCheckFields ((key, v) :: rest) =
          (do serializeCheck v; serializeCheckFields rest) by simp [serializeCheckFields],
        serializeCheck_eq v, serializeCheckFields_eq rest]
    by_cases h : v.hasTransferableRepresentation = true <;>
      by_cases h2 : allTransferableFields rest = true <;>
        simp [allTransferableFields, h, h2, Bind.bind, Except.bind]

end

mutual

/-- JSON-cloneable values have a transferable representation. -/
theorem JSONCloneable_hasRep : (v : JSValue) → v.JSONCloneable = true →
    v.hasTransferableRepresentation = true
  | .num _, _ => by simp [JSValue.hasTransferableRepresentation]
  | .boolean _, _ => by simp [JSValue.hasTransferableRepresentation]
  | .null, _ => by simp [JSValue.hasTransferableRepresentation]
  | .undefined, h => by simp [JSValue.JSONCloneable] at h
  | .date _, h => by simp [JSValue.JSONCloneable] at h
  | .str _, _ => by simp [JSValue.hasTransferableRepresentation]
  | .arrayBuffer _ _, h => by simp [JSValue.JSONCloneable] at h
  | .bufferView _ _, h => by simp [JSValue.JSONCloneable] at h
  | .errObj _ _ _, h => by simp [JSValue.JSONCloneable] at h
  | .func, h => by simp [JSValue.JSONCloneable] at h
  | .symbol _, h => by simp [JSValue.JSONCloneable] at h
  | .nativeObject _, h => by simp [JSValue.JSONCloneable] at h
  | .arr elements, h => by
    have := JSONCloneableList_allTransferable elements
      (by simpa [JSValue.JSONCloneable] using h)
    simpa [JSValue.hasTransferableRepresentation] using this
  | .obj fields, h => by
    have := JSONCloneableFields_allTransferable fields
      (by simpa [JSValue.JSONCloneable] using h)
    simpa [JSValue.hasTransferableRepresentation] using this

/-- List version of `JSONCloneable_hasRep`. -/
theorem JSONCloneableList_allTransferable : (l : List JSValue) →
    JSONCloneableList l = true → allTransferable l = true
  | [], _ => by simp [allTransferable]
  | v :: rest, h => by
    have hv : v.JSONCloneable = true := by
      have := h; simp [JSONCloneableList] at this; exact this.1
    have hr : JSONCloneableList rest = true := by
      have := h; simp [JSONCloneableList] at this; exact this.2
    simp [allTransferable, JSONCloneable_hasRep v hv,
      JSONCloneableList_allTransferable rest hr]

/-- Field version of `JSONCloneable_hasRep`. -/
theorem JSONCloneableFields_allTransferable : (l : List (List Nat × JSValue)) →
    JSONCloneableFields l = true → allTransferableFields l = true
  | [], _ => by simp [allTransferableFields]
  | (key, v) :: rest, h => by
    have hv : v.JSONCloneable = true := by
      have := h; simp [JSONCloneableFields] at this; exact this.1
    have hr : JSONCloneableFields rest = true := by
      have := h; simp [JSONCloneableFields] at this; exact this.2
    simp [allTransferableFields, JSONCloneable_hasRep v hv,
      JSONCloneableFields_allTransferable rest hr]

end

/-- C7: `Copy` fails with `NotSerializable` precisely on the engine values
with no transferable representation — functions, native objects outside the
handle set, symbols other than well-known ones, and composites containing
one of those — and returns a transferable for every value with a
transferable representation. -/
theorem copy_notSerializable_iff (v : JSValue) :
    (v.hasTransferableRepresentation = false ↔
      ExternalCopy.Copy v false = .error .NotSerializable) ∧
    (v.hasTransferableRepresentation = true ↔
      ∃ t, ExternalCopy.Copy v false = .ok t) := by
  cases v with
  | num n => simp [ExternalCopy.Copy, JSValue.hasTransferableRepresentation]
  | boolean b => simp [ExternalCopy.Copy, JSValue.hasTransferableRepresentation]
  | null => simp [ExternalCopy.Copy, JSValue.hasTransferableRepresentation]
  | undefined => simp [ExternalCopy.Copy, JSValue.hasTransferableRepresentation]
  | date d => simp [ExternalCopy.Copy, JSValue.hasTransferableRepresentation]
  | str s => simp [ExternalCopy.Copy, JSValue.hasTransferableRepresentation]
  | arrayBuffer bytes detached =>
    simp [ExternalCopy.Copy, JSValue.hasTransferableRepresentation]
  | bufferView viewType bytes =>
    simp [ExternalCopy.Copy, JSValue.hasTransferableRepresentation]
  | errObj errorType message stack =>
    simp [ExternalCopy.Copy, JSValue.hasTransferableRepresentation]
  | func => simp [ExternalCopy.Copy, JSValue.hasTransferableRepresentation]
  | symbol wellKnown =>
    cases wellKnown <;> simp [ExternalCopy.Copy, JSValue.hasTransferableRepresentation]
  | nativeObject inHandleSet =>
    cases inHandleSet <;> simp [ExternalCopy.Copy, JSValue.hasTransferableRepresentation]
  | arr elements =>
    have hl := serializeCheckList_eq elements
    by_cases h : allTransferable elements = true <;>
      simp [ExternalCopy.Copy, JSValue.hasTransferableRepresentation, hl, h,
        Bind.bind, Except.bind]
  | obj fields =>
    have hl := serializeCheckFields_eq fields
    by_cases h : allTransferableFields fields = true <;>
      simp [ExternalCopy.Copy, JSValue.hasTransferableRepresentation, hl, h,
        Bind.bind, Except.bind]

/-- Every JSON-cloneable value is copied to a transferable whose
materialization produces exactly the original value. -/
theorem copy_cloneable_copyInto (v : JSValue) (hclone : v.JSONCloneable = true) :
    ∃ t : Transferable, ExternalCopy.Copy v false = .ok t ∧ t.CopyInto = some v := by
  cases v with
  | num n => exact ⟨.number n, rfl, rfl⟩
  | boolean b => exact ⟨.boolean b, rfl, rfl⟩
  | null => exact ⟨.null, rfl, rfl⟩
  | str s =>
    exact ⟨.string s, rfl, by simp [Transferable.CopyInto, ExternalCopyString.CopyInto_eq]⟩
  | arr elements =>
    refine ⟨.serialized (.arr elements), ?_, rfl⟩
    have hall : allTransferable elements = true :=
      JSONCloneableList_allTransferable elements
        (by simpa [JSValue.JSONCloneable] using hclone)
    simp [ExternalCopy.Copy, serializeCheckList_eq elements, hall, Bind.bind, Except.bind]
  | obj fields =>
    refine ⟨.serialized (.obj fields), ?_, rfl⟩
    have hall : allTransferableFields fields = true :=
      JSONCloneableFields_allTransferable fields
        (by simpa [JSValue.JSONCloneable] using hclone)
    simp [ExternalCopy.Copy, serializeCheckFields_eq fields, hall, Bind.bind, Except.bind]
  | undefined => simp [JSValue.JSONCloneable] at hclone
  | date d => simp [JSValue.JSONCloneable] at hclone
  | arrayBuffer bytes detached => simp [JSValue.JSONCloneable] at hclone
  | bufferView viewType bytes => simp [JSValue.JSONCloneable] at hclone
  | errObj errorType message stack => simp [JSValue.JSONCloneable] at hclone
  | func => simp [JSValue.JSONCloneable] at hclone
  | symbol wellKnown => simp [JSValue.JSONCloneable] at hclone
  | nativeObject inHandleSet => simp [JSValue.JSONCloneable] at hclone

/-- C2: for every JSON-cloneable value `v`, `Copy` succeeds, and
`TransferIn` of the resulting transferable in a fresh isolate — under that
isolate's executor lock and with heap headroom for the transferable's
worst-case heap size — materializes a value structurally equal to `v`. -/
theorem copy_transferIn_roundtrip (v : JSValue) (env : IsolateEnvironment)
    (hclone : v.JSONCloneable = true)
    (hlock : env.executorLockHeld = true)
    (hfresh : env.heap = []) :
    ∃ t : Transferable, ExternalCopy.Copy v false = .ok t ∧
      (env.lastHeapUsed + t.WorstCaseHeapSize ≤ env.memory_limit →
        ExternalCopy.TransferIn t env = (.ok v, { env with heap := [v] })) := by
  obtain ⟨t, hcopy, hinto⟩ := copy_cloneable_copyInto v hclone
  refine ⟨t, hcopy, fun hroom => ?_⟩
  have hnot : ¬ env.lastHeapUsed + t.WorstCaseHeapSize > env.memory_limit := by omega
  simp [ExternalCopy.TransferIn, hnot, hinto, hfresh]

/-- `copy_transferIn_roundtrip` at a concrete JSON-cloneable value — an
array holding a number and an empty string — in a concrete fresh
environment with a 4096-byte limit. -/
theorem copy_transferIn_roundtrip_witness :
    (JSValue.arr [.num 2, .str []]).JSONCloneable = true ∧
    sampleRoomyEnv.executorLockHeld = true ∧
    sampleRoomyEnv.heap = [] ∧
    (∃ t : Transferable,
      ExternalCopy.Copy (.arr [.num 2, .str []]) false = .ok t ∧
      (sampleRoomyEnv.lastHeapUsed + t.WorstCaseHeapSize ≤ sampleRoomyEnv.memory_limit →
        ExternalCopy.TransferIn t sampleRoomyEnv =
          (.ok (.arr [.num 2, .str []]),
           { sampleRoomyEnv with heap := [.arr [.num 2, .str []]] }))) :=
  ⟨by simp [JSValue.JSONCloneable, JSONCloneableList], rfl, rfl,
    copy_transferIn_roundtrip (.arr [.num 2, .str []]) sampleRoomyEnv
      (by simp [JSValue.JSONCloneable, JSONCloneableList]) rfl rfl⟩

/-- Invariant of the executor-lock machinery: in every reachable state each
thread's `current` thread-local equals the environment of its newest live
lock frame, and every frame saved the environment of the frame below it. -/
theorem execReachable_invariant (s : ExecState) (hs : ExecReachable s) (t : Nat) :
    s.current t = topEnv (s.frames t) ∧ stackChained (s.frames t) := by
  induction hs with
  | init => simp [ExecState.init, topEnv, stackChained]
  | step hr hstep ih =>
    cases hstep with
    | acquire t0 e hfree =>
      by_cases ht : t = t0
      · subst ht
        simp only [Function.update_same]
        exact ⟨rfl, ih.1, ih.2⟩
      · simpa only [Function.update_noteq ht] using ih
    | release t0 e saved rest htop =>
      by_cases ht : t = t0
      · subst ht
        have hch := ih.2
        rw [htop] at hch
        simp only [Function.update_same]
        exact ⟨hch.1, hch.2⟩
      · simpa only [Function.update_noteq ht] using ih

/-- The state after thread 0 acquires environment 0's executor lock at
boot. -/
def bootAcq0 : ExecState :=
  { current := Function.update ExecState.init.current 0 (some 0)
    frames := Function.update ExecState.init.frames 0
      ((0, ExecState.init.current 0) :: ExecState.init.frames 0) }

/-- `bootAcq0` after thread 0 additionally acquires environment 1's
executor lock while still holding environment 0's — the nesting the spec
itself describes, where the constructor remembers the previous value of
`current`. -/
def bootAcq01 : ExecState :=
  { current := Function.update bootAcq0.current 0 (some 1)
    frames := Function.update bootAcq0.frames 0
      ((1, bootAcq0.current 0) :: bootAcq0.frames 0) }

/-- C8 counterexample: in the reachable state where thread 0 acquired
environment 0's executor lock and then environment 1's, thread 0 still
holds environment 0's lock but the current-isolate thread-local points to
environment 1 — so "the thread-local points to an environment iff the
thread holds that environment's executor lock" fails at thread 0 and
environment 0. -/
theorem executorLock_current_iff_counterexample :
    ExecReachable bootAcq01 ∧ bootAcq01.holdsLock 0 0 ∧
      ¬ (bootAcq01.current 0 = some 0) := by
  refine ⟨?_, ?_, ?_⟩
  · have h1 : ExecStep ExecState.init bootAcq0 :=
      ExecStep.acquire ExecState.init 0 0 (by
        intro t'
        simp [ExecState.holdsLock, ExecState.init])
    have h2 : ExecStep bootAcq0 bootAcq01 :=
      ExecStep.acquire bootAcq0 0 1 (by
        intro t'
        by_cases ht : t' = 0 <;>
          simp [ExecState.holdsLock, bootAcq0, ExecState.init, Function.update, ht])
    exact ExecReachable.step (ExecReachable.step ExecReachable.init h1) h2
  · simp [ExecState.holdsLock, bootAcq01, bootAcq0, ExecState.init, Function.update]
  · simp [bootAcq01, Function.update]

/-- C8 amended: in every reachable state, each thread's current-isolate
thread-local points to the environment of its most recently acquired,
still-held executor lock (none when it holds none) — each destructor
restores the value its constructor saved — and the claimed equivalence
"current points to `e` iff the thread holds `e`'s executor lock" holds
whenever the thread holds at most one executor lock; it fails only for
nested acquisitions, as the counterexample shows. -/
theorem executorLock_current_topmost (s : ExecState) (hs : ExecReachable s) (t e : Nat) :
    s.current t = topEnv (s.frames t) ∧
    ((s.frames t).length ≤ 1 → (s.current t = some e ↔ s.holdsLock t e)) := by
  obtain ⟨h1, _⟩ := execReachable_invariant s hs t
  refine ⟨h1, fun hlen => ?_⟩
  cases hf : s.frames t with
  | nil =>
    rw [hf] at h1
    simp [ExecState.holdsLock, hf, h1, topEnv]
  | cons p rest =>
    have hrest : rest = [] := by
      rw [hf] at hlen
      simp only [List.length_cons] at hlen
      exact List.length_eq_zero.mp (by omega)
    subst hrest
    rw [hf] at h1
    simp only [ExecState.holdsLock, hf, h1, topEnv]
    simp [eq_comm]

/-- `executorLock_current_topmost` at the boot state, thread 0 and
environment 0. -/
theorem executorLock_current_topmost_witness :
    ExecState.init.current 0 = topEnv (ExecState.init.frames 0) ∧
    ((ExecState.init.frames 0).length ≤ 1 →
      (ExecState.init.current 0 = some 0 ↔ ExecState.init.holdsLock 0 0)) :=
  executorLock_current_topmost ExecState.init ExecReachable.init 0 0

end ivm
